import Mathlib

/-!
Verification of the clamshell Go rules engine, a shallow embedding of
core/board/board.go.  The Board holds a row-major grid of colors (indexed
board[y][x]) and an optional ko point.  PlaceStone validates a move,
tentatively places the stone, computes captures with a breadth-first
flood fill over same-colored stones, rejects suicidal and immediate-ko
placements, and commits by removing captured stones.
-/

/-- Modelled from the spec: the core/color package is not under src.
Color is the enumeration of cell states, with Empty denoting an
unoccupied intersection (the zero value of the Go type). -/
inductive Color
  | Empty
  | Black
  | White
  deriving DecidableEq, Repr

/-- Modelled from the spec: the core/point package is not under src.
A Point is an immutable pair of int64 coordinates compared by value. -/
structure Point where
  x : Int
  y : Int
  deriving DecidableEq, Repr

/-- Modelled from the spec: the core/move package is not under src.
A Move pairs the color to place with the target point. -/
structure Move where
  color : Color
  point : Point
  deriving DecidableEq, Repr

/-- The Board struct of board.go: the grid of colors plus the ko point
that is illegal to recapture. -/
structure Board where
  board : List (List Color)
  ko : Option Point
  deriving DecidableEq, Repr

/-- len(b.board), the number of rows. -/
def Board.height (b : Board) : Nat := b.board.length

/-- len(b.board[0]), the row width used by the bounds check. -/
def Board.width (b : Board) : Nat := (b.board.headD []).length

/-- NewBoard from board.go: a size x size grid whose cells all start at
the zero value Empty, with no ko point. -/
def NewBoard (size : Nat) : Board :=
  { board := List.replicate size (List.replicate size Color.Empty), ko := none }

/-- inBounds from board.go: x < len(board[0]) and y < len(board) and
both coordinates nonnegative. -/
def inBounds (b : Board) (pt : Point) : Bool :=
  decide (pt.x < (b.width : Int) ∧ pt.y < (b.height : Int) ∧ 0 ≤ pt.x ∧ 0 ≤ pt.y)

/-- colorAt from board.go: board[y][x]. -/
def colorAt (b : Board) (pt : Point) : Color :=
  (b.board.getD pt.y.toNat []).getD pt.x.toNat Color.Empty

/-- setColor from board.go: board[y][x] = color. -/
def setColor (b : Board) (m : Move) : Board :=
  { b with
      board := b.board.set m.point.y.toNat
        ((b.board.getD m.point.y.toNat []).set m.point.x.toNat m.color) }

/-- getNeighbors from board.go, in the fixed order plus-x, minus-x,
plus-y, minus-y.  Neighbors may be out of bounds. -/
def getNeighbors (pt : Point) : List Point :=
  [⟨pt.x + 1, pt.y⟩, ⟨pt.x - 1, pt.y⟩, ⟨pt.x, pt.y + 1⟩, ⟨pt.x, pt.y - 1⟩]

/-- The worklist loop of capturedStones in board.go.  expanded is the
visited set in insertion order (the Go code keeps it as map keys; only
its membership and its size are ever observed), queue is the pending
worklist.  Each iteration pops the front element: out-of-bounds points
are skipped, an Empty point is a liberty and ends the whole search with
none, an unvisited same-colored point is recorded and its neighbors are
pushed, and anything else is skipped.  The loop of the Go code runs
until the queue is empty; the fuel argument is a bound on the number of
iterations, strictly decreased on every step, and the callers below pass
a fuel that provably dominates the loop measure, so the fuel-exhaustion
branch is never taken on any actual call. -/
def bfs (b : Board) (c : Color) : Nat → List Point → List Point → Option (List Point)
  | 0, _, _ => none
  | _ + 1, expanded, [] => some expanded
  | fuel + 1, expanded, pt1 :: rest =>
      if inBounds b pt1 = false then
        bfs b c fuel expanded rest
      else if colorAt b pt1 = Color.Empty then
        none
      else if colorAt b pt1 = c ∧ pt1 ∉ expanded then
        bfs b c fuel (expanded ++ [pt1]) (rest ++ getNeighbors pt1)
      else
        bfs b c fuel expanded rest

/-- capturedStones from board.go: flood fill from pt over the color at
pt; none models the nil result (a liberty was found), some l the
captured group.  Every iteration of the loop either consumes a queue
entry or visits a new in-bounds point and pushes its 4 neighbors, so
5 * width * height + 2 iterations strictly dominate the loop. -/
def capturedStones (b : Board) (pt : Point) : Option (List Point) :=
  bfs b (colorAt b pt) (5 * (b.width * b.height) + 2) [] [pt]

/-- findCapturedGroups from board.go: append the capturedStones result
of every in-bounds neighbor of the placed point (nil contributes
nothing). -/
def findCapturedGroups (b : Board) (m : Move) : List Point :=
  (getNeighbors m.point).foldl
    (fun acc n =>
      if inBounds b n = true then acc ++ (capturedStones b n).getD [] else acc)
    []

/-- removeCapturedStones from board.go: clear every captured point back
to Empty. -/
def removeCapturedStones (b : Board) (caps : List Point) : Board :=
  caps.foldl (fun bb p => setColor bb { color := Color.Empty, point := p }) b

/-- The four error kinds PlaceStone can return (the Go code formats them
as strings; only the kind is observable to the claims). -/
inductive PlaceErr
  | outOfBounds
  | occupied
  | suicidal
  | illegalKo
  deriving DecidableEq, Repr

/-- The ([]*point.Point, error) result pair of PlaceStone. -/
inductive PlaceResult
  | ok (captured : List Point)
  | err (e : PlaceErr)
  deriving DecidableEq, Repr

/-- PlaceStone from board.go, with the mutated receiver made explicit:
the result is the board after the call together with the returned value.
The steps mirror the source exactly: remember and clear ko, bounds
check, occupancy check, tentative placement, opponent-capture search,
suicide check, ko re-establishment and check, commit. -/
def placeStone (b0 : Board) (m : Move) : Board × PlaceResult :=
  let ko := b0.ko
  let b := { b0 with ko := none }
  if inBounds b m.point = false then
    (b, .err .outOfBounds)
  else if colorAt b m.point ≠ Color.Empty then
    (b, .err .occupied)
  else
    let b1 := setColor b m
    let captured := findCapturedGroups b1 m
    if captured.length = 0 ∧ ((capturedStones b1 m.point).getD []).length ≠ 0 then
      (setColor b1 { color := Color.Empty, point := m.point }, .err .suicidal)
    else
      let b2 := if captured.length = 1 then { b1 with ko := some m.point } else b1
      if captured.length = 1 ∧ ko = some (captured.headD { x := 0, y := 0 }) then
        (setColor b2 { color := Color.Empty, point := m.point }, .err .illegalKo)
      else
        (removeCapturedStones b2 captured, .ok captured)

/-- An element of the dynamically typed worklist: container/list in Go
stores untyped values, so a dequeued element is either the expected
Point or something else. -/
inductive Dyn
  | pointElem (p : Point)
  | otherElem
  deriving DecidableEq, Repr

/-- Result of the traversal over the dynamically typed worklist;
panicked models the defensive type-assertion failure in capturedStones
(the panic raised when a dequeued element is not a Point). -/
inductive DynRes
  | panicked
  | res (r : Option (List Point))
  deriving DecidableEq, Repr

/-- The capturedStones loop with the worklist kept at the dynamic type
it has in the Go source, including the defensive type assertion on every
dequeued element. -/
def bfsDyn (b : Board) (c : Color) : Nat → List Point → List Dyn → DynRes
  | 0, _, _ => .res none
  | _ + 1, expanded, [] => .res (some expanded)
  | fuel + 1, expanded, d :: rest =>
      match d with
      | .otherElem => .panicked
      | .pointElem pt1 =>
          if inBounds b pt1 = false then
            bfsDyn b c fuel expanded rest
          else if colorAt b pt1 = Color.Empty then
            .res none
          else if colorAt b pt1 = c ∧ pt1 ∉ expanded then
            bfsDyn b c fuel (expanded ++ [pt1])
              (rest ++ (getNeighbors pt1).map Dyn.pointElem)
          else
            bfsDyn b c fuel expanded rest

/-- capturedStones with the dynamically typed worklist of the source. -/
def capturedStonesDyn (b : Board) (pt : Point) : DynRes :=
  bfsDyn b (colorAt b pt) (5 * (b.width * b.height) + 2) [] [Dyn.pointElem pt]

/-- One traversal step within a same-colored group: t is an in-bounds
neighbor of s holding color c. -/
def stepRel (b : Board) (c : Color) (s t : Point) : Prop :=
  t ∈ getNeighbors s ∧ inBounds b t = true ∧ colorAt b t = c

/-- q belongs to the maximal 4-connected color-c region reachable from
p over in-bounds points. -/
def reach (b : Board) (c : Color) : Point → Point → Prop :=
  Relation.ReflTransGen (stepRel b c)

/-- The group of color c anchored at p has a liberty: some member has an
in-bounds Empty neighbor.  Out-of-bounds neighbors never qualify. -/
def hasLib (b : Board) (c : Color) (p : Point) : Prop :=
  ∃ e, reach b c p e ∧ ∃ n ∈ getNeighbors e, inBounds b n = true ∧ colorAt b n = Color.Empty

/-- The grid is square: every row is as long as the list of rows. -/
def Square (g : List (List Color)) : Prop := ∀ r ∈ g, r.length = g.length

/-- Board states produced by NewBoard followed by any sequence of
PlaceStone calls (accepted or rejected). -/
inductive Reachable (size : Nat) : Board → Prop
  | base : Reachable size (NewBoard size)
  | step (b : Board) (m : Move) : Reachable size b → Reachable size (placeStone b m).1

/-- The finite set of in-bounds points of a board. -/
def allPoints (b : Board) : Finset Point :=
  ((Finset.range b.height) ×ˢ (Finset.range b.width)).image
    (fun yx => { x := (yx.2 : Int), y := (yx.1 : Int) })

/-- Number of in-bounds points not yet visited: the dominant term of the
loop measure of the flood fill. -/
def unexpanded (b : Board) (expanded : List Point) : Nat :=
  ((allPoints b).filter (fun p => p ∉ expanded)).card

/-! ### Concrete positions used by the claim instances -/

/-- The spec capture scenario: a white stone at (1,1) surrounded by
black stones at (0,1), (2,1), (1,0); black is about to play (1,2). -/
def capScenarioBoard : Board :=
  { board := [[Color.Empty, Color.Black, Color.Empty],
              [Color.Black, Color.White, Color.Black],
              [Color.Empty, Color.Empty, Color.Empty]],
    ko := none }

/-- A 3x3 position where black playing (0,0) is a two-stone suicide:
the black group then consists of (0,0) and (1,0) and has no liberty,
while every white group keeps a liberty. -/
def suicideBoard : Board :=
  { board := [[Color.Empty, Color.Black, Color.White],
              [Color.White, Color.White, Color.Empty],
              [Color.Empty, Color.Empty, Color.Empty]],
    ko := none }

/-- A 3x3 position where black playing (1,1) captures the white group
consisting of (0,0), (0,1) and (1,0), which is adjacent to the placed
stone through two distinct neighbors. -/
def dupBoard : Board :=
  { board := [[Color.White, Color.White, Color.Black],
              [Color.White, Color.Empty, Color.Empty],
              [Color.Black, Color.Empty, Color.Empty]],
    ko := none }

/-- A 4x3 ko position before White captures: the black stone at (1,1)
has its last liberty at (2,1), where White is about to play. -/
def koStartBoard : Board :=
  { board := [[Color.Empty, Color.White, Color.Black, Color.Empty],
              [Color.White, Color.Black, Color.Empty, Color.Black],
              [Color.Empty, Color.White, Color.Black, Color.Empty]],
    ko := none }

/-- The position after White has played (2,1) capturing the single
black stone at (1,1); ko is set to the placement point (2,1). -/
def koCapturedBoard : Board :=
  { board := [[Color.Empty, Color.White, Color.Black, Color.Empty],
              [Color.White, Color.Empty, Color.White, Color.Black],
              [Color.Empty, Color.White, Color.Black, Color.Empty]],
    ko := some ⟨2, 1⟩ }

/-- The position after Black has additionally played the unrelated
legal non-capturing move (3,0) on koCapturedBoard; ko is cleared. -/
def koElsewhereBoard : Board :=
  { board := [[Color.Empty, Color.White, Color.Black, Color.Black],
              [Color.White, Color.Empty, Color.White, Color.Black],
              [Color.Empty, Color.White, Color.Black, Color.Empty]],
    ko := none }

/-- The grid obtained by placing a black stone at (0,0) on an empty
2x2 board: the point at which findCapturedGroups runs the analyzer on
the Empty in-bounds neighbors (1,0) and (0,1). -/
def emptyNeighborBoard : Board :=
  setColor { NewBoard 2 with ko := none } { color := Color.Black, point := ⟨0, 0⟩ }

instance decidableSquare (g : List (List Color)) : Decidable (Square g) :=
  inferInstanceAs (Decidable (∀ r ∈ g, r.length = g.length))

/-- The grid after the concrete capture scenario: the white stone at
(1,1) has been removed and ko points at the placement (1,2). -/
def capResultBoard : Board :=
  { board := [[Color.Empty, Color.Black, Color.Empty],
              [Color.Black, Color.Empty, Color.Black],
              [Color.Empty, Color.Black, Color.Empty]],
    ko := some ⟨1, 2⟩ }

/-! ### Elementary list lemmas used throughout -/

lemma getD_set_eq {α : Type} (l : List α) (i : Nat) (a d : α) (h : i < l.length) :
    (l.set i a).getD i d = a := by
  induction l generalizing i with
  | nil => simp at h
  | cons x xs ih =>
      cases i with
      | zero => simp
      | succ n => simpa using ih n (by simpa using h)

lemma getD_set_ne {α : Type} (l : List α) (i j : Nat) (a d : α) (h : i ≠ j) :
    (l.set i a).getD j d = l.getD j d := by
  induction l generalizing i j with
  | nil => simp
  | cons x xs ih =>
      cases i with
      | zero =>
          cases j with
          | zero => exact absurd rfl h
          | succ m => simp
      | succ n =>
          cases j with
          | zero => simp
          | succ m => simpa using ih n m (by omega)

lemma set_getD_self {α : Type} (l : List α) (i : Nat) (d : α) :
    l.set i (l.getD i d) = l := by
  induction l generalizing i with
  | nil => simp
  | cons x xs ih =>
      cases i with
      | zero => simp
      | succ n => simpa using ih n

lemma set_oob {α : Type} (l : List α) (i : Nat) (a : α) (h : l.length ≤ i) :
    l.set i a = l := by
  induction l generalizing i with
  | nil => simp
  | cons x xs ih =>
      cases i with
      | zero => simp at h
      | succ n => simpa using ih n (by simpa using h)

lemma getD_mem {α : Type} (l : List α) (i : Nat) (d : α) (h : i < l.length) :
    l.getD i d ∈ l := by
  induction l generalizing i with
  | nil => simp at h
  | cons x xs ih =>
      cases i with
      | zero => simp
      | succ n => exact List.mem_cons_of_mem _ (ih n (by simpa using h))

lemma headD_eq_getD {α : Type} (l : List α) (d : α) : l.headD d = l.getD 0 d := by
  cases l <;> simp

/-! ### The ko field is independent of the grid operations -/

@[simp] lemma board_withKo (b : Board) (k : Option Point) :
    ({ b with ko := k } : Board).board = b.board := rfl

@[simp] lemma inBounds_withKo (b : Board) (k : Option Point) (pt : Point) :
    inBounds { b with ko := k } pt = inBounds b pt := rfl

@[simp] lemma colorAt_withKo (b : Board) (k : Option Point) (pt : Point) :
    colorAt { b with ko := k } pt = colorAt b pt := rfl

@[simp] lemma width_withKo (b : Board) (k : Option Point) :
    ({ b with ko := k } : Board).width = b.width := rfl

@[simp] lemma height_withKo (b : Board) (k : Option Point) :
    ({ b with ko := k } : Board).height = b.height := rfl

lemma bfs_withKo (b : Board) (k : Option Point) (c : Color) :
    ∀ fuel expanded queue,
      bfs { b with ko := k } c fuel expanded queue = bfs b c fuel expanded queue := by
  intro fuel
  induction fuel with
  | zero => intro e q; rfl
  | succ n ih =>
      intro e q
      cases q with
      | nil => rfl
      | cons pt1 rest => simp only [bfs, inBounds_withKo, colorAt_withKo, ih]

@[simp] lemma capturedStones_withKo (b : Board) (k : Option Point) (pt : Point) :
    capturedStones { b with ko := k } pt = capturedStones b pt := by
  simp only [capturedStones, colorAt_withKo, width_withKo, height_withKo, bfs_withKo]

@[simp] lemma findCapturedGroups_withKo (b : Board) (k : Option Point) (m : Move) :
    findCapturedGroups { b with ko := k } m = findCapturedGroups b m := by
  simp only [findCapturedGroups, inBounds_withKo, capturedStones_withKo]

@[simp] lemma setColor_withKo (b : Board) (k : Option Point) (m : Move) :
    setColor { b with ko := k } m = { setColor b m with ko := k } := rfl

@[simp] lemma ko_setColor (b : Board) (m : Move) : (setColor b m).ko = b.ko := rfl

lemma removeCapturedStones_nil (b : Board) : removeCapturedStones b [] = b := rfl

lemma removeCapturedStones_cons (b : Board) (p : Point) (rest : List Point) :
    removeCapturedStones b (p :: rest) =
      removeCapturedStones (setColor b { color := Color.Empty, point := p }) rest := rfl

@[simp] lemma ko_removeCapturedStones (b : Board) (caps : List Point) :
    (removeCapturedStones b caps).ko = b.ko := by
  induction caps generalizing b with
  | nil => rfl
  | cons p rest ih => rw [removeCapturedStones_cons, ih, ko_setColor]

/-! ### Grid dimensions are preserved by every mutation -/

@[simp] lemma height_setColor (b : Board) (m : Move) :
    (setColor b m).height = b.height := by
  simp [setColor, Board.height]

@[simp] lemma width_setColor (b : Board) (m : Move) :
    (setColor b m).width = b.width := by
  unfold setColor Board.width
  rw [headD_eq_getD, headD_eq_getD]
  by_cases hy : m.point.y.toNat = 0
  · rw [hy]
    by_cases hl : 0 < b.board.length
    · rw [getD_set_eq _ _ _ _ hl]
      simp
    · rw [set_oob _ _ _ (by omega)]
  · rw [getD_set_ne _ _ _ _ _ hy]

@[simp] lemma inBounds_setColor (b : Board) (m : Move) (q : Point) :
    inBounds (setColor b m) q = inBounds b q := by
  simp [inBounds]

@[simp] lemma height_removeCapturedStones (b : Board) (caps : List Point) :
    (removeCapturedStones b caps).height = b.height := by
  induction caps generalizing b with
  | nil => rfl
  | cons p rest ih => rw [removeCapturedStones_cons, ih, height_setColor]

@[simp] lemma width_removeCapturedStones (b : Board) (caps : List Point) :
    (removeCapturedStones b caps).width = b.width := by
  induction caps generalizing b with
  | nil => rfl
  | cons p rest ih => rw [removeCapturedStones_cons, ih, width_setColor]

@[simp] lemma inBounds_removeCapturedStones (b : Board) (caps : List Point) (q : Point) :
    inBounds (removeCapturedStones b caps) q = inBounds b q := by
  simp [inBounds]

/-! ### Squareness and cell-level effects of setColor -/

lemma square_setColor (b : Board) (m : Move) (hsq : Square b.board) :
    Square (setColor b m).board := by
  intro r hr
  by_cases hy : m.point.y.toNat < b.board.length
  · simp only [setColor] at hr
    have hlen : (setColor b m).board.length = b.board.length := by
      simp [setColor]
    rw [hlen]
    rcases List.mem_or_eq_of_mem_set hr with h | h
    · exact hsq r h
    · subst h
      rw [List.length_set]
      exact hsq _ (getD_mem _ _ _ hy)
  · simp only [setColor, set_oob _ _ _ (by omega : b.board.length ≤ m.point.y.toNat)] at hr ⊢
    exact hsq r hr

lemma square_removeCapturedStones (b : Board) (caps : List Point) (hsq : Square b.board) :
    Square (removeCapturedStones b caps).board := by
  induction caps generalizing b with
  | nil => exact hsq
  | cons p rest ih => rw [removeCapturedStones_cons]; exact ih _ (square_setColor _ _ hsq)

lemma point_eq_of_toNat (b : Board) (p q : Point)
    (hp : inBounds b p = true) (hq : inBounds b q = true)
    (hx : p.x.toNat = q.x.toNat) (hy : p.y.toNat = q.y.toNat) : p = q := by
  rcases p with ⟨px, py⟩
  rcases q with ⟨qx, qy⟩
  simp only [inBounds, decide_eq_true_eq] at hp hq
  simp only at hx hy
  have : px = qx := by omega
  have : py = qy := by omega
  simp_all

lemma colorAt_setColor_self (b : Board) (m : Move)
    (hsq : Square b.board) (h : inBounds b m.point = true) :
    colorAt (setColor b m) m.point = m.color := by
  have hb := h
  simp only [inBounds, decide_eq_true_eq, Board.width, Board.height] at hb
  obtain ⟨hxw, hyh, hx0, hy0⟩ := hb
  have hylen : m.point.y.toNat < b.board.length := by omega
  have h0 : 0 < b.board.length := Nat.lt_of_le_of_lt (Nat.zero_le _) hylen
  have hrow0 : (b.board.headD []).length = b.board.length := by
    rw [headD_eq_getD]
    exact hsq _ (getD_mem _ _ _ h0)
  have hxlen : m.point.x.toNat < (b.board.getD m.point.y.toNat []).length := by
    rw [hsq _ (getD_mem _ _ _ hylen)]
    omega
  simp only [colorAt, setColor]
  rw [getD_set_eq _ _ _ _ (by simpa using hylen)]
  rw [getD_set_eq _ _ _ _ hxlen]

lemma colorAt_setColor_other (b : Board) (m : Move) (q : Point)
    (hne : q ≠ m.point) (hq : inBounds b q = true) (hm : inBounds b m.point = true) :
    colorAt (setColor b m) q = colorAt b q := by
  by_cases hy : q.y.toNat = m.point.y.toNat
  · have hx : m.point.x.toNat ≠ q.x.toNat := by
      intro hx
      exact hne (point_eq_of_toNat b q m.point hq hm hx.symm hy)
    simp only [colorAt, setColor]
    by_cases hylen : m.point.y.toNat < b.board.length
    · rw [hy, getD_set_eq _ _ _ _ (by simpa using hylen)]
      rw [getD_set_ne _ _ _ _ _ hx]
    · rw [set_oob _ _ _ (by omega)]
  · simp only [colorAt, setColor]
    rw [getD_set_ne _ _ _ _ _ (fun hh => hy hh.symm)]

lemma setColor_revert (b : Board) (m : Move) (h : colorAt b m.point = Color.Empty) :
    (setColor (setColor b m) { color := Color.Empty, point := m.point }).board = b.board := by
  simp only [colorAt] at h
  simp only [setColor]
  by_cases hy : m.point.y.toNat < b.board.length
  · have h1 : (b.board.set m.point.y.toNat
          ((b.board.getD m.point.y.toNat []).set m.point.x.toNat m.color)).getD
            m.point.y.toNat []
        = (b.board.getD m.point.y.toNat []).set m.point.x.toNat m.color :=
      getD_set_eq _ _ _ _ (by simpa using hy)
    rw [h1, List.set_set, List.set_set, ← h, set_getD_self, set_getD_self]
  · rw [set_oob _ _ _ (by omega : b.board.length ≤ m.point.y.toNat)]
    rw [set_oob _ _ _ (by omega : b.board.length ≤ m.point.y.toNat)]

lemma colorAt_removeCapturedStones (b : Board) (caps : List Point) (q : Point)
    (hsq : Square b.board) (hall : ∀ p ∈ caps, inBounds b p = true)
    (hq : inBounds b q = true) :
    colorAt (removeCapturedStones b caps) q =
      if q ∈ caps then Color.Empty else colorAt b q := by
  induction caps generalizing b with
  | nil => simp [removeCapturedStones_nil]
  | cons p rest ih =>
      have hp : inBounds b p = true := hall p (by simp)
      have hsq' : Square (setColor b { color := Color.Empty, point := p }).board :=
        square_setColor _ _ hsq
      have hall' : ∀ r ∈ rest, inBounds (setColor b { color := Color.Empty, point := p }) r = true := by
        intro r hr
        rw [inBounds_setColor]
        exact hall r (by simp [hr])
      have hq' : inBounds (setColor b { color := Color.Empty, point := p }) q = true := by
        rw [inBounds_setColor]; exact hq
      rw [removeCapturedStones_cons, ih _ hsq' hall' hq']
      by_cases hqr : q ∈ rest
      · simp [hqr]
      · by_cases hqp : q = p
        · subst hqp
          have := colorAt_setColor_self b { color := Color.Empty, point := q } hsq hp
          simp only at this
          simp [hqr, this]
        · have := colorAt_setColor_other b { color := Color.Empty, point := p } q hqp hq hp
          simp only at this
          simp [hqr, hqp, this]

/-! ### The loop measure of the flood fill -/

lemma mem_allPoints (b : Board) (q : Point) : q ∈ allPoints b ↔ inBounds b q = true := by
  rcases q with ⟨qx, qy⟩
  simp only [allPoints, Finset.mem_image, Finset.mem_product, Finset.mem_range, inBounds,
    decide_eq_true_eq, Point.mk.injEq, Prod.exists]
  constructor
  · rintro ⟨yy, xx, ⟨hy, hx⟩, hqx, hqy⟩
    refine ⟨?_, ?_, ?_, ?_⟩ <;> omega
  · rintro ⟨h1, h2, h3, h4⟩
    exact ⟨qy.toNat, qx.toNat, ⟨by omega, by omega⟩, by omega, by omega⟩

lemma unexpanded_lt (b : Board) (expanded : List Point) (pt1 : Point)
    (hin : inBounds b pt1 = true) (hnot : pt1 ∉ expanded) :
    unexpanded b (expanded ++ [pt1]) < unexpanded b expanded := by
  have hsub : (allPoints b).filter (fun p => p ∉ expanded ++ [pt1]) ⊆
      (allPoints b).filter (fun p => p ∉ expanded) := by
    intro q hq
    simp only [Finset.mem_filter, List.mem_append, List.mem_singleton] at hq ⊢
    exact ⟨hq.1, fun h => hq.2 (Or.inl h)⟩
  apply Finset.card_lt_card
  rw [Finset.ssubset_iff_of_subset hsub]
  refine ⟨pt1, ?_, ?_⟩
  · simp only [Finset.mem_filter]
    exact ⟨(mem_allPoints b pt1).2 hin, hnot⟩
  · simp [Finset.mem_filter]

lemma unexpanded_le (b : Board) (expanded : List Point) :
    unexpanded b expanded ≤ b.width * b.height := by
  calc unexpanded b expanded ≤ (allPoints b).card := Finset.card_filter_le _ _
    _ ≤ ((Finset.range b.height) ×ˢ (Finset.range b.width)).card := Finset.card_image_le
    _ = b.height * b.width := by simp
    _ = b.width * b.height := Nat.mul_comm _ _

/-! ### Correctness of the flood-fill traversal -/

/-- Main invariant lemma for the capturedStones loop.  Given that the
start point p is in bounds and holds the non-Empty color c, and given
the loop invariants (every visited point is an in-bounds member of the
group of p; every queued point is the start or a neighbor of a visited
point; the start is visited or queued; every same-colored or Empty
in-bounds neighbor of a visited point is visited or still queued), the
loop returns none exactly on groups with a liberty and otherwise
returns exactly the group of p. -/
lemma bfs_master (b : Board) (c : Color) (p : Point)
    (hp : inBounds b p = true) (hc : colorAt b p = c) (hcne : c ≠ Color.Empty) :
    ∀ fuel expanded queue,
      5 * unexpanded b expanded + queue.length < fuel →
      (∀ q ∈ expanded, inBounds b q = true ∧ colorAt b q = c ∧ reach b c p q) →
      (∀ q ∈ queue, q = p ∨ ∃ e ∈ expanded, q ∈ getNeighbors e) →
      (p ∈ expanded ∨ p ∈ queue) →
      (∀ e ∈ expanded, ∀ n ∈ getNeighbors e, inBounds b n = true →
          (colorAt b n = c ∨ colorAt b n = Color.Empty) → n ∈ expanded ∨ n ∈ queue) →
      (bfs b c fuel expanded queue = none → hasLib b c p) ∧
      (∀ l, bfs b c fuel expanded queue = some l →
          (∀ q, q ∈ l ↔ reach b c p q) ∧ ¬ hasLib b c p) := by
  intro fuel
  induction fuel with
  | zero =>
      intro expanded queue hm _ _ _ _
      exact absurd hm (Nat.not_lt_zero _)
  | succ n ih =>
      intro expanded queue hm HA HB HC HD
      cases queue with
      | nil =>
          have hclosed : ∀ q, reach b c p q → q ∈ expanded := by
            intro q hq
            induction hq with
            | refl =>
                rcases HC with h | h
                · exact h
                · simp at h
            | tail hr hs ihq =>
                rcases hs with ⟨hnb, hin, hcol⟩
                rcases HD _ ihq _ hnb hin (Or.inl hcol) with h | h
                · exact h
                · simp at h
          constructor
          · intro h
            simp [bfs] at h
          · intro l hl
            have hl' : expanded = l := by simpa [bfs] using hl
            subst hl'
            refine ⟨fun q => ⟨fun hq => (HA q hq).2.2, hclosed q⟩, ?_⟩
            rintro ⟨e, he, nlib, hnb, hin, hemp⟩
            have heexp := hclosed e he
            rcases HD _ heexp _ hnb hin (Or.inr hemp) with h | h
            · have hcn := (HA _ h).2.1
              rw [hcn] at hemp
              exact hcne hemp
            · simp at h
      | cons pt1 rest =>
          by_cases h1 : inBounds b pt1 = false
          · have heq : bfs b c (n + 1) expanded (pt1 :: rest) = bfs b c n expanded rest := by
              simp [bfs, h1]
            rw [heq]
            apply ih expanded rest
            · simp only [List.length_cons] at hm
              omega
            · exact HA
            · intro q hq
              exact HB q (by simp [hq])
            · rcases HC with h | h
              · exact Or.inl h
              · rcases List.mem_cons.mp h with h' | h'
                · rw [h'] at hp
                  rw [hp] at h1
                  cases h1
                · exact Or.inr h'
            · intro e he nn hnb hin hco
              rcases HD e he nn hnb hin hco with h | h
              · exact Or.inl h
              · rcases List.mem_cons.mp h with h' | h'
                · rw [h'] at hin
                  rw [hin] at h1
                  cases h1
                · exact Or.inr h'
          · have h1' : inBounds b pt1 = true := by
              cases hh : inBounds b pt1
              · exact absurd hh h1
              · rfl
            by_cases h2 : colorAt b pt1 = Color.Empty
            · have heq : bfs b c (n + 1) expanded (pt1 :: rest) = none := by
                simp [bfs, h1', h2]
              constructor
              · intro _
                rcases HB pt1 (by simp) with h' | ⟨e, he, hn⟩
                · rw [h'] at h2
                  exact absurd (hc.symm.trans h2) hcne
                · exact ⟨e, (HA e he).2.2, pt1, hn, h1', h2⟩
              · intro l hl
                rw [heq] at hl
                cases hl
            · by_cases h3 : colorAt b pt1 = c ∧ pt1 ∉ expanded
              · have heq : bfs b c (n + 1) expanded (pt1 :: rest)
                    = bfs b c n (expanded ++ [pt1]) (rest ++ getNeighbors pt1) := by
                  simp only [bfs]
                  rw [if_neg h1, if_neg h2, if_pos h3]
                rw [heq]
                have hreach : reach b c p pt1 := by
                  rcases HB pt1 (by simp) with h' | ⟨e, he, hn⟩
                  · rw [h']
                    exact Relation.ReflTransGen.refl
                  · exact Relation.ReflTransGen.tail (HA e he).2.2 ⟨hn, h1', h3.1⟩
                apply ih (expanded ++ [pt1]) (rest ++ getNeighbors pt1)
                · have hlt := unexpanded_lt b expanded pt1 h1' h3.2
                  have hlen : (rest ++ getNeighbors pt1).length = rest.length + 4 := by
                    simp [getNeighbors]
                  simp only [List.length_cons] at hm
                  rw [hlen]
                  omega
                · intro q hq
                  rcases List.mem_append.mp hq with h | h
                  · exact HA q h
                  · rw [List.mem_singleton] at h
                    rw [h]
                    exact ⟨h1', h3.1, hreach⟩
                · intro q hq
                  rcases List.mem_append.mp hq with h | h
                  · rcases HB q (by simp [h]) with h' | ⟨e, he, hn⟩
                    · exact Or.inl h'
                    · exact Or.inr ⟨e, by simp [he], hn⟩
                  · exact Or.inr ⟨pt1, by simp, h⟩
                · rcases HC with h | h
                  · exact Or.inl (by simp [h])
                  · rcases List.mem_cons.mp h with h' | h'
                    · exact Or.inl (by simp [h'])
                    · exact Or.inr (by simp [h'])
                · intro e he nn hnb hin hco
                  rcases List.mem_append.mp he with h | h
                  · rcases HD e h nn hnb hin hco with h' | h'
                    · exact Or.inl (by simp [h'])
                    · rcases List.mem_cons.mp h' with h'' | h''
                      · exact Or.inl (by simp [h''])
                      · exact Or.inr (by simp [h''])
                  · rw [List.mem_singleton] at h
                    subst h
                    exact Or.inr (by simp [hnb])
              · have heq : bfs b c (n + 1) expanded (pt1 :: rest) = bfs b c n expanded rest := by
                  simp only [bfs]
                  rw [if_neg (by simp [h1']), if_neg h2, if_neg h3]
                rw [heq]
                have hpt1exp : colorAt b pt1 = c → pt1 ∈ expanded := by
                  intro hcc
                  by_contra hnn
                  exact h3 ⟨hcc, hnn⟩
                apply ih expanded rest
                · simp only [List.length_cons] at hm
                  omega
                · exact HA
                · intro q hq
                  exact HB q (by simp [hq])
                · rcases HC with h | h
                  · exact Or.inl h
                  · rcases List.mem_cons.mp h with h' | h'
                    · rw [h']
                      exact Or.inl (hpt1exp (h' ▸ hc))
                    · exact Or.inr h'
                · intro e he nn hnb hin hco
                  rcases HD e he nn hnb hin hco with h | h
                  · exact Or.inl h
                  · rcases List.mem_cons.mp h with h' | h'
                    · rcases hco with hcc | hcc
                      · rw [h']
                        exact Or.inl (hpt1exp (h' ▸ hcc))
                      · rw [h'] at hcc
                        exact absurd hcc h2
                    · exact Or.inr h'

/-- Characterization of capturedStones: on an in-bounds occupied start
point it returns none exactly when the group of that point has a
liberty, and otherwise returns exactly the group. -/
lemma capturedStones_spec (b : Board) (p : Point)
    (hp : inBounds b p = true) (hne : colorAt b p ≠ Color.Empty) :
    (capturedStones b p = none ↔ hasLib b (colorAt b p) p) ∧
    (∀ l, capturedStones b p = some l →
        (∀ q, q ∈ l ↔ reach b (colorAt b p) p q) ∧ ¬ hasLib b (colorAt b p) p) := by
  have hmeasure : 5 * unexpanded b [] + ([p] : List Point).length
      < 5 * (b.width * b.height) + 2 := by
    have := unexpanded_le b ([] : List Point)
    simp only [List.length_singleton]
    omega
  have hmain := bfs_master b (colorAt b p) p hp rfl hne
      (5 * (b.width * b.height) + 2) [] [p] hmeasure
      (by intro q hq; simp at hq)
      (by intro q hq; rw [List.mem_singleton] at hq; exact Or.inl hq)
      (Or.inr (by simp))
      (by intro e he; simp at he)
  refine ⟨⟨fun h => hmain.1 h, fun hlib => ?_⟩, fun l hl => hmain.2 l hl⟩
  cases hcap : capturedStones b p with
  | none => rfl
  | some l => exact absurd hlib (hmain.2 l hcap).2

/-- Every point of the group of an in-bounds point is in bounds. -/
lemma reach_inBounds (b : Board) (c : Color) (s t : Point)
    (h : reach b c s t) (hs : inBounds b s = true) : inBounds b t = true := by
  induction h with
  | refl => exact hs
  | tail _ hstep ih => exact hstep.2.1

/-- Every point of the group of a point of color c holds color c. -/
lemma reach_colorAt (b : Board) (c : Color) (s t : Point)
    (h : reach b c s t) (hs : colorAt b s = c) : colorAt b t = c := by
  induction h with
  | refl => exact hs
  | tail _ hstep ih => exact hstep.2.2

/-- capturedStones invoked on an Empty in-bounds point returns nil at
once: the start point itself is dequeued first and is a liberty. -/
lemma capturedStones_empty_none (b : Board) (p : Point)
    (hp : inBounds b p = true) (hemp : colorAt b p = Color.Empty) :
    capturedStones b p = none := by
  have h2 : 5 * (b.width * b.height) + 2 = (5 * (b.width * b.height) + 1) + 1 := rfl
  rw [capturedStones, h2]
  simp only [bfs]
  rw [if_neg (by simp [hp]), if_pos hemp]

/-- Membership in the findCapturedGroups result: a point is returned
exactly when some in-bounds neighbor of the placed point anchors a
capturedStones group containing it. -/
lemma mem_findCapturedGroups (b : Board) (m : Move) (q : Point) :
    q ∈ findCapturedGroups b m ↔
      ∃ n ∈ getNeighbors m.point, inBounds b n = true ∧
        ∃ l, capturedStones b n = some l ∧ q ∈ l := by
  have key : ∀ (ns : List Point) (acc : List Point),
      q ∈ ns.foldl
          (fun acc n =>
            if inBounds b n = true then acc ++ (capturedStones b n).getD [] else acc) acc ↔
        q ∈ acc ∨ ∃ n ∈ ns, inBounds b n = true ∧
          ∃ l, capturedStones b n = some l ∧ q ∈ l := by
    intro ns
    induction ns with
    | nil => simp
    | cons n rest ih =>
        intro acc
        rw [List.foldl_cons, ih]
        constructor
        · rintro (hacc | ⟨n', hn', hrest⟩)
          · by_cases hin : inBounds b n = true
            · rw [if_pos hin] at hacc
              rcases List.mem_append.mp hacc with h | h
              · exact Or.inl h
              · cases hcap : capturedStones b n with
                | none => rw [hcap] at h; simp at h
                | some l =>
                    rw [hcap] at h
                    exact Or.inr ⟨n, by simp, hin, l, hcap, h⟩
            · rw [if_neg hin] at hacc
              exact Or.inl hacc
          · exact Or.inr ⟨n', by simp [hn'], hrest⟩
        · rintro (hacc | ⟨n', hn', hin, l, hcap, hq⟩)
          · left
            by_cases hin : inBounds b n = true
            · rw [if_pos hin]
              exact List.mem_append.mpr (Or.inl hacc)
            · rw [if_neg hin]
              exact hacc
          · rcases List.mem_cons.mp hn' with h' | h'
            · subst h'
              left
              rw [if_pos hin, hcap]
              exact List.mem_append.mpr (Or.inr hq)
            · exact Or.inr ⟨n', h', hin, l, hcap, hq⟩
  rw [findCapturedGroups, key]
  simp

/-! ### The dynamically typed worklist never panics -/

/-- On a worklist consisting only of Points, the dynamically typed
traversal agrees step for step with the typed one. -/
lemma bfsDyn_map (b : Board) (c : Color) :
    ∀ fuel expanded queue,
      bfsDyn b c fuel expanded (queue.map Dyn.pointElem) = DynRes.res (bfs b c fuel expanded queue) := by
  intro fuel
  induction fuel with
  | zero => intro e q; rfl
  | succ n ih =>
      intro e q
      cases q with
      | nil => rfl
      | cons pt1 rest =>
          simp only [List.map_cons, bfsDyn, bfs]
          by_cases h1 : inBounds b pt1 = false
          · rw [if_pos h1, if_pos h1, ih]
          · rw [if_neg h1, if_neg h1]
            by_cases h2 : colorAt b pt1 = Color.Empty
            · rw [if_pos h2, if_pos h2]
            · rw [if_neg h2, if_neg h2]
              by_cases h3 : colorAt b pt1 = c ∧ pt1 ∉ e
              · rw [if_pos h3, if_pos h3, ← List.map_append, ih]
              · rw [if_neg h3, if_neg h3, ih]

/-! ### Path lemmas for placeStone -/

lemma placeStone_oob (b : Board) (m : Move) (h : inBounds b m.point = false) :
    placeStone b m = ({ b with ko := none }, .err .outOfBounds) := by
  simp only [placeStone, inBounds_withKo]
  rw [if_pos h]

lemma placeStone_occupied (b : Board) (m : Move)
    (h1 : inBounds b m.point = true) (h2 : colorAt b m.point ≠ Color.Empty) :
    placeStone b m = ({ b with ko := none }, .err .occupied) := by
  simp only [placeStone, inBounds_withKo, colorAt_withKo]
  rw [if_neg (by simp [h1]), if_pos h2]

lemma placeStone_suicide (b : Board) (m : Move)
    (h1 : inBounds b m.point = true) (h2 : colorAt b m.point = Color.Empty)
    (hs : (findCapturedGroups (setColor { b with ko := none } m) m).length = 0 ∧
      ((capturedStones (setColor { b with ko := none } m) m.point).getD []).length ≠ 0) :
    placeStone b m =
      (setColor (setColor { b with ko := none } m) { color := Color.Empty, point := m.point },
        .err .suicidal) := by
  simp only [placeStone, inBounds_withKo, colorAt_withKo]
  rw [if_neg (by simp [h1]), if_neg (by simp [h2]), if_pos hs]

lemma placeStone_ko_reject_raw (b : Board) (m : Move)
    (h1 : inBounds b m.point = true) (h2 : colorAt b m.point = Color.Empty)
    (hns : ¬((findCapturedGroups (setColor { b with ko := none } m) m).length = 0 ∧
      ((capturedStones (setColor { b with ko := none } m) m.point).getD []).length ≠ 0))
    (hk : (findCapturedGroups (setColor { b with ko := none } m) m).length = 1 ∧
      b.ko = some ((findCapturedGroups (setColor { b with ko := none } m) m).headD { x := 0, y := 0 })) :
    placeStone b m =
      (setColor { setColor { b with ko := none } m with ko := some m.point }
          { color := Color.Empty, point := m.point },
        .err .illegalKo) := by
  simp only [placeStone, inBounds_withKo, colorAt_withKo]
  rw [if_neg (by simp [h1]), if_neg (by simp [h2]), if_neg hns, if_pos hk.1, if_pos hk]

lemma placeStone_commit (b : Board) (m : Move) (l : List Point)
    (h1 : inBounds b m.point = true) (h2 : colorAt b m.point = Color.Empty)
    (hcap : findCapturedGroups (setColor { b with ko := none } m) m = l)
    (hns : ¬(l.length = 0 ∧
      ((capturedStones (setColor { b with ko := none } m) m.point).getD []).length ≠ 0))
    (hnk : ¬(l.length = 1 ∧ b.ko = some (l.headD { x := 0, y := 0 }))) :
    placeStone b m =
      (removeCapturedStones
        (if l.length = 1 then { setColor { b with ko := none } m with ko := some m.point }
         else setColor { b with ko := none } m) l,
        .ok l) := by
  simp only [placeStone, inBounds_withKo, colorAt_withKo]
  rw [if_neg (by simp [h1]), if_neg (by simp [h2]), hcap, if_neg hns, if_neg hnk]

lemma inBounds_true_of_not_false (b : Board) (p : Point) (h : ¬ inBounds b p = false) :
    inBounds b p = true := by
  cases hh : inBounds b p
  · exact absurd hh h
  · rfl

/-- Inversion of a successful PlaceStone call: the checks passed, the
returned list is the findCapturedGroups result on the tentatively
placed board, the final board commits the removals, and ko ends at the
placed point exactly when one stone was captured. -/
lemma placeStone_ok_inv (b : Board) (m : Move) (b' : Board) (l : List Point)
    (h : placeStone b m = (b', .ok l)) :
    inBounds b m.point = true ∧ colorAt b m.point = Color.Empty ∧
    l = findCapturedGroups (setColor { b with ko := none } m) m ∧
    b' = removeCapturedStones
        (if l.length = 1 then { setColor { b with ko := none } m with ko := some m.point }
         else setColor { b with ko := none } m) l ∧
    b'.ko = (if l.length = 1 then some m.point else none) := by
  by_cases h1 : inBounds b m.point = false
  · rw [placeStone_oob b m h1] at h
    simp at h
  · have h1' : inBounds b m.point = true := inBounds_true_of_not_false b m.point h1
    by_cases h2 : colorAt b m.point = Color.Empty
    · by_cases hs : (findCapturedGroups (setColor { b with ko := none } m) m).length = 0 ∧
          ((capturedStones (setColor { b with ko := none } m) m.point).getD []).length ≠ 0
      · rw [placeStone_suicide b m h1' h2 hs] at h
        simp at h
      · by_cases hk : (findCapturedGroups (setColor { b with ko := none } m) m).length = 1 ∧
            b.ko = some ((findCapturedGroups (setColor { b with ko := none } m) m).headD
              { x := 0, y := 0 })
        · rw [placeStone_ko_reject_raw b m h1' h2 hs hk] at h
          simp at h
        · rw [placeStone_commit b m _ h1' h2 rfl hs hk] at h
          obtain ⟨hb', hres⟩ := Prod.mk.inj h
          have hl : findCapturedGroups (setColor { b with ko := none } m) m = l :=
            PlaceResult.ok.inj hres
          subst hl
          refine ⟨h1', h2, rfl, hb'.symm, ?_⟩
          rw [← hb']
          rw [ko_removeCapturedStones]
          by_cases hone : (findCapturedGroups (setColor { b with ko := none } m) m).length = 1
          · rw [if_pos hone, if_pos hone]
          · rw [if_neg hone, if_neg hone]
            exact rfl
    · rw [placeStone_occupied b m h1' h2] at h
      simp at h

/-- On an illegal immediate ko recapture, PlaceStone fails with the ko
error, restores the grid, and leaves ko set to the rejected move's own
point (the source assigns b.ko = m.Point() before the comparison and
does not clear it on this path). -/
lemma placeStone_ko_reject (b : Board) (m : Move) (k : Point)
    (h1 : inBounds b m.point = true) (h2 : colorAt b m.point = Color.Empty)
    (hcap : findCapturedGroups (setColor { b with ko := none } m) m = [k])
    (hko : b.ko = some k) :
    placeStone b m = ({ board := b.board, ko := some m.point }, .err .illegalKo) := by
  have hraw := placeStone_ko_reject_raw b m h1 h2
      (by rw [hcap]; simp)
      (by rw [hcap]; exact ⟨rfl, by simpa using hko⟩)
  rw [hraw]
  have hrev := setColor_revert { b with ko := none } m (by simpa using h2)
  simp only [setColor_withKo, Prod.mk.injEq, Board.mk.injEq, and_true]
  simpa using hrev

/-! ### Facts about freshly constructed boards -/

lemma NewBoard_ko (size : Nat) : (NewBoard size).ko = none := rfl

lemma NewBoard_length (size : Nat) : (NewBoard size).board.length = size := by
  simp [NewBoard]

lemma NewBoard_rows (size : Nat) :
    ∀ r ∈ (NewBoard size).board, r = List.replicate size Color.Empty := by
  intro r hr
  exact List.eq_of_mem_replicate hr

lemma NewBoard_square (size : Nat) : Square (NewBoard size).board := by
  intro r hr
  rw [NewBoard_rows size r hr]
  simp [NewBoard]

/-! ### Dimension preservation along every placeStone path -/

lemma colorAt_congr (b1 b2 : Board) (h : b1.board = b2.board) (q : Point) :
    colorAt b1 q = colorAt b2 q := by
  simp [colorAt, h]

lemma inBounds_congr (b1 b2 : Board) (h : b1.board = b2.board) (q : Point) :
    inBounds b1 q = inBounds b2 q := by
  simp [inBounds, Board.width, Board.height, h]

lemma inBounds_dims (b1 b2 : Board) (hw : b1.width = b2.width)
    (hh : b1.height = b2.height) (q : Point) :
    inBounds b1 q = inBounds b2 q := by
  simp [inBounds, hw, hh]

lemma rows_setColor (b : Board) (m : Move) (s : Nat)
    (h : ∀ row ∈ b.board, row.length = s) :
    ∀ row ∈ (setColor b m).board, row.length = s := by
  intro r hr
  by_cases hy : m.point.y.toNat < b.board.length
  · simp only [setColor] at hr
    rcases List.mem_or_eq_of_mem_set hr with h' | h'
    · exact h r h'
    · subst h'
      rw [List.length_set]
      exact h _ (getD_mem _ _ _ hy)
  · simp only [setColor, set_oob _ _ _ (by omega : b.board.length ≤ m.point.y.toNat)] at hr
    exact h r hr

lemma rows_removeCapturedStones (b : Board) (caps : List Point) (s : Nat)
    (h : ∀ row ∈ b.board, row.length = s) :
    ∀ row ∈ (removeCapturedStones b caps).board, row.length = s := by
  induction caps generalizing b with
  | nil => exact h
  | cons p rest ih =>
      rw [removeCapturedStones_cons]
      exact ih _ (rows_setColor _ _ _ h)

/-- Along every path of placeStone the grid dimensions are preserved,
every row keeps its length, and the final ko is either none or the
placed (in-bounds) point. -/
lemma placeStone_preserves (b : Board) (m : Move) :
    (placeStone b m).1.height = b.height ∧
    (placeStone b m).1.width = b.width ∧
    (∀ s, (∀ row ∈ b.board, row.length = s) →
      ∀ row ∈ (placeStone b m).1.board, row.length = s) ∧
    ((placeStone b m).1.ko = none ∨
      ((placeStone b m).1.ko = some m.point ∧ inBounds b m.point = true)) := by
  by_cases h1 : inBounds b m.point = false
  · rw [placeStone_oob b m h1]
    exact ⟨rfl, rfl, fun s h => by simpa using h, Or.inl rfl⟩
  · have h1' := inBounds_true_of_not_false b m.point h1
    by_cases h2 : colorAt b m.point = Color.Empty
    · by_cases hs : (findCapturedGroups (setColor { b with ko := none } m) m).length = 0 ∧
          ((capturedStones (setColor { b with ko := none } m) m.point).getD []).length ≠ 0
      · rw [placeStone_suicide b m h1' h2 hs]
        refine ⟨by simp, by simp, ?_, Or.inl rfl⟩
        intro s h
        exact rows_setColor _ _ _ (rows_setColor _ _ _ (by simpa using h))
      · by_cases hk : (findCapturedGroups (setColor { b with ko := none } m) m).length = 1 ∧
            b.ko = some ((findCapturedGroups (setColor { b with ko := none } m) m).headD
              { x := 0, y := 0 })
        · rw [placeStone_ko_reject_raw b m h1' h2 hs hk]
          refine ⟨by simp, by simp, ?_, Or.inr ⟨rfl, h1'⟩⟩
          intro s h
          exact rows_setColor _ _ _ (by simpa using rows_setColor _ _ _ (by simpa using h))
        · rw [placeStone_commit b m _ h1' h2 rfl hs hk]
          by_cases hone : (findCapturedGroups (setColor { b with ko := none } m) m).length = 1
          · rw [if_pos hone]
            refine ⟨by simp, by simp, ?_, Or.inr ⟨by simp, h1'⟩⟩
            intro s h
            exact rows_removeCapturedStones _ _ _
              (by simpa using rows_setColor _ _ _ (by simpa using h))
          · rw [if_neg hone]
            refine ⟨by simp, by simp, ?_, Or.inl (by simp)⟩
            intro s h
            exact rows_removeCapturedStones _ _ _ (rows_setColor _ _ _ (by simpa using h))
    · rw [placeStone_occupied b m h1' h2]
      exact ⟨rfl, rfl, fun s h => by simpa using h, Or.inl rfl⟩

/-- Every point returned by findCapturedGroups is in bounds and
occupied on the board it was computed from. -/
lemma captured_points_inBounds (b : Board) (m : Move) (q : Point)
    (hq : q ∈ findCapturedGroups b m) :
    inBounds b q = true ∧ colorAt b q ≠ Color.Empty := by
  rcases (mem_findCapturedGroups b m q).1 hq with ⟨n, hn, hin, l, hcap, hql⟩
  by_cases hemp : colorAt b n = Color.Empty
  · rw [capturedStones_empty_none b n hin hemp] at hcap
    cases hcap
  · have hspec := (capturedStones_spec b n hin hemp).2 l hcap
    have hreach := (hspec.1 q).1 hql
    refine ⟨reach_inBounds b _ n q hreach hin, ?_⟩
    rw [reach_colorAt b _ n q hreach rfl]
    exact hemp

/-! ### The claims -/

/-- C1: for every board, the group and liberty analyzer run on an
in-bounds occupied point returns nil exactly when the maximal
4-connected same-colored group containing that point has a liberty (an
in-bounds Empty neighbor of some group member: out-of-bounds neighbors
never count as liberties), and it returns the entire group, and nothing
else, exactly when no such liberty exists; in particular no stone of a
group with at least one liberty is ever enumerated as captured. -/
theorem C1_capturedStones_group_liberty (b : Board) (p : Point)
    (hp : inBounds b p = true) (hne : colorAt b p ≠ Color.Empty) :
    (capturedStones b p = none ↔ hasLib b (colorAt b p) p) ∧
    (∀ l, capturedStones b p = some l →
        (∀ q, q ∈ l ↔ reach b (colorAt b p) p q) ∧ ¬ hasLib b (colorAt b p) p) :=
  capturedStones_spec b p hp hne

/-- Witness for C1: the white stone at (1,1) of the capture scenario
still has the liberty (1,2), and the analyzer returns nil on it. -/
theorem C1_capturedStones_group_liberty_witness :
    inBounds capScenarioBoard ⟨1, 1⟩ = true ∧
    colorAt capScenarioBoard ⟨1, 1⟩ ≠ Color.Empty ∧
    ((capturedStones capScenarioBoard ⟨1, 1⟩ = none ↔
        hasLib capScenarioBoard (colorAt capScenarioBoard ⟨1, 1⟩) ⟨1, 1⟩) ∧
      (∀ l, capturedStones capScenarioBoard ⟨1, 1⟩ = some l →
        (∀ q, q ∈ l ↔ reach capScenarioBoard (colorAt capScenarioBoard ⟨1, 1⟩) ⟨1, 1⟩ q) ∧
          ¬ hasLib capScenarioBoard (colorAt capScenarioBoard ⟨1, 1⟩) ⟨1, 1⟩)) :=
  ⟨by decide, by decide,
    C1_capturedStones_group_liberty capScenarioBoard ⟨1, 1⟩ (by decide) (by decide)⟩

/-- C2 counterexample: at the concrete ko position the premises of the
claim hold (ko is set and equals the single stone the call would
capture, and the call fails with the ko error), yet the Board is not
what the claim says: ko ends set to the rejected move's point (1,1),
so it is neither cleared nor equal to the pre-call Board. -/
theorem C2_counterexample :
    koCapturedBoard.ko = some ⟨2, 1⟩ ∧
    findCapturedGroups (setColor { koCapturedBoard with ko := none }
        { color := Color.Black, point := ⟨1, 1⟩ })
      { color := Color.Black, point := ⟨1, 1⟩ } = [⟨2, 1⟩] ∧
    (placeStone koCapturedBoard { color := Color.Black, point := ⟨1, 1⟩ }).2 =
      PlaceResult.err PlaceErr.illegalKo ∧
    (placeStone koCapturedBoard { color := Color.Black, point := ⟨1, 1⟩ }).1.ko =
      some ⟨1, 1⟩ ∧
    (placeStone koCapturedBoard { color := Color.Black, point := ⟨1, 1⟩ }).1 ≠
      koCapturedBoard := by
  decide

/-- C2 (amended): when the remembered ko point is set and equals the
single stone the placement would capture, PlaceStone fails with the ko
error and restores the grid exactly, but the Board is not byte-for-byte
the pre-call state: the ko field ends set to the rejected move's own
point, neither cleared nor restored. -/
theorem C2_amended_ko_rejection (b : Board) (m : Move) (k : Point)
    (h1 : inBounds b m.point = true) (h2 : colorAt b m.point = Color.Empty)
    (hcap : findCapturedGroups (setColor { b with ko := none } m) m = [k])
    (hko : b.ko = some k) :
    placeStone b m =
      ({ board := b.board, ko := some m.point }, PlaceResult.err PlaceErr.illegalKo) :=
  placeStone_ko_reject b m k h1 h2 hcap hko

/-- Witness for the amended C2 at the concrete ko position. -/
theorem C2_amended_ko_rejection_witness :
    inBounds koCapturedBoard (⟨1, 1⟩ : Point) = true ∧
    colorAt koCapturedBoard ⟨1, 1⟩ = Color.Empty ∧
    findCapturedGroups (setColor { koCapturedBoard with ko := none }
        { color := Color.Black, point := ⟨1, 1⟩ })
      { color := Color.Black, point := ⟨1, 1⟩ } = [⟨2, 1⟩] ∧
    koCapturedBoard.ko = some ⟨2, 1⟩ ∧
    placeStone koCapturedBoard { color := Color.Black, point := ⟨1, 1⟩ } =
      ({ board := koCapturedBoard.board, ko := some ⟨1, 1⟩ },
        PlaceResult.err PlaceErr.illegalKo) :=
  ⟨by decide, by decide, by decide, by decide,
    C2_amended_ko_rejection koCapturedBoard { color := Color.Black, point := ⟨1, 1⟩ }
      ⟨2, 1⟩ (by decide) (by decide) (by decide) (by decide)⟩

/-- C3 counterexample: with a set ko point, an out-of-bounds attempt is
rejected but the returned Board is not byte-for-byte the pre-call
Board: its ko has been cleared. -/
theorem C3_counterexample :
    koCapturedBoard.ko = some ⟨2, 1⟩ ∧
    (placeStone koCapturedBoard { color := Color.Black, point := ⟨9, 9⟩ }).2 =
      PlaceResult.err PlaceErr.outOfBounds ∧
    (placeStone koCapturedBoard { color := Color.Black, point := ⟨9, 9⟩ }).1.ko = none ∧
    (placeStone koCapturedBoard { color := Color.Black, point := ⟨9, 9⟩ }).1 ≠
      koCapturedBoard := by
  decide

/-- C3 (amended): a bounds-rejected or occupancy-rejected placement
returns the corresponding error and leaves the grid untouched, but the
ko field is cleared to none rather than restored, so the whole Board
equals its pre-call state exactly when its ko was already unset. -/
theorem C3_amended_reject_clears_ko (b : Board) (m : Move) :
    (inBounds b m.point = false →
      placeStone b m = ({ b with ko := none }, PlaceResult.err PlaceErr.outOfBounds)) ∧
    (inBounds b m.point = true → colorAt b m.point ≠ Color.Empty →
      placeStone b m = ({ b with ko := none }, PlaceResult.err PlaceErr.occupied)) :=
  ⟨placeStone_oob b m, placeStone_occupied b m⟩

/-- Witness for the amended C3: an out-of-bounds and an occupied
rejection at the concrete ko position, both clearing ko. -/
theorem C3_amended_reject_clears_ko_witness :
    (inBounds koCapturedBoard (⟨9, 9⟩ : Point) = false ∧
      placeStone koCapturedBoard { color := Color.Black, point := ⟨9, 9⟩ } =
        ({ koCapturedBoard with ko := none }, PlaceResult.err PlaceErr.outOfBounds)) ∧
    (inBounds koCapturedBoard (⟨2, 1⟩ : Point) = true ∧
      colorAt koCapturedBoard ⟨2, 1⟩ ≠ Color.Empty ∧
      placeStone koCapturedBoard { color := Color.Black, point := ⟨2, 1⟩ } =
        ({ koCapturedBoard with ko := none }, PlaceResult.err PlaceErr.occupied)) :=
  ⟨⟨by decide,
      (C3_amended_reject_clears_ko koCapturedBoard
        { color := Color.Black, point := ⟨9, 9⟩ }).1 (by decide)⟩,
    ⟨by decide, by decide,
      (C3_amended_reject_clears_ko koCapturedBoard
        { color := Color.Black, point := ⟨2, 1⟩ }).2 (by decide) (by decide)⟩⟩

/-- C4: the code fails to reject a multi-stone suicide.  At
suicideBoard, black playing (0,0) satisfies the premises of the claim:
the point is empty and in bounds, no opponent stone is captured, and
the mover's own group consisting of (0,0) and (1,0) ends with zero
liberties (the analyzer run on the tentative board returns exactly that
group).  The claim, the spec and the documentation of PlaceStone demand
a suicide error with the Board unmodified, but the call returns ok,
reports the mover's own two stones as captured, and removes them. -/
theorem C4_multi_stone_suicide_not_rejected :
    inBounds suicideBoard ⟨0, 0⟩ = true ∧
    colorAt suicideBoard ⟨0, 0⟩ = Color.Empty ∧
    capturedStones (setColor { suicideBoard with ko := none }
        { color := Color.Black, point := ⟨0, 0⟩ }) ⟨0, 0⟩ = some [⟨0, 0⟩, ⟨1, 0⟩] ∧
    placeStone suicideBoard { color := Color.Black, point := ⟨0, 0⟩ } =
      ({ board := [[Color.Empty, Color.Empty, Color.White],
                   [Color.White, Color.White, Color.Empty],
                   [Color.Empty, Color.Empty, Color.Empty]],
         ko := none },
        PlaceResult.ok [⟨1, 0⟩, ⟨0, 0⟩]) ∧
    (placeStone suicideBoard { color := Color.Black, point := ⟨0, 0⟩ }).2 ≠
      PlaceResult.err PlaceErr.suicidal ∧
    colorAt suicideBoard ⟨1, 0⟩ = Color.Black ∧
    colorAt (placeStone suicideBoard { color := Color.Black, point := ⟨0, 0⟩ }).1 ⟨1, 0⟩ =
      Color.Empty := by
  decide

/-- C5 counterexample: black playing (1,1) at dupBoard captures the
single white group consisting of (0,0), (0,1) and (1,0), adjacent to
the placed stone through the two neighbors (0,1) and (1,0); the
returned collection lists every point of that group twice. -/
theorem C5_counterexample :
    (placeStone dupBoard { color := Color.Black, point := ⟨1, 1⟩ }).2 =
      PlaceResult.ok [⟨0, 1⟩, ⟨0, 0⟩, ⟨1, 0⟩, ⟨1, 0⟩, ⟨0, 0⟩, ⟨0, 1⟩] ∧
    ¬ ([⟨0, 1⟩, ⟨0, 0⟩, ⟨1, 0⟩, ⟨1, 0⟩, ⟨0, 0⟩, ⟨0, 1⟩] : List Point).Nodup := by
  decide

/-- C5 (amended): the computed collection concatenates one analyzer
result per in-bounds neighbor of the placed point (not one per distinct
group): a point is returned exactly when the analyzer run at some
in-bounds neighbor returns a captured group containing it, so as a set
the collection is the union of the captured groups adjacent to the
placed stone, but a group adjacent through several neighbors
contributes its points once per such neighbor, producing duplicates. -/
theorem C5_amended_captures_union (b : Board) (m : Move) (q : Point) :
    q ∈ findCapturedGroups b m ↔
      ∃ n ∈ getNeighbors m.point, inBounds b n = true ∧
        ∃ l, capturedStones b n = some l ∧ q ∈ l :=
  mem_findCapturedGroups b m q

/-- C6 counterexample: a successful PlaceStone call after which the
target cell does not hold the move's color: the multi-stone suicide at
suicideBoard succeeds with no error, and the just-placed black stone at
(0,0) is itself listed as captured and removed, so the target ends
Empty. -/
theorem C6_counterexample :
    (placeStone suicideBoard { color := Color.Black, point := ⟨0, 0⟩ }).2 =
      PlaceResult.ok [⟨1, 0⟩, ⟨0, 0⟩] ∧
    colorAt (placeStone suicideBoard { color := Color.Black, point := ⟨0, 0⟩ }).1 ⟨0, 0⟩ =
      Color.Empty ∧
    colorAt (placeStone suicideBoard { color := Color.Black, point := ⟨0, 0⟩ }).1 ⟨0, 0⟩ ≠
      Color.Black := by
  decide

/-- C9 counterexample: during the PlaceStone call placing black at
(0,0) on an empty 2x2 board, the capture search runs the analyzer on
every in-bounds neighbor of the placed point; the neighbor (1,0)
passes that bounds guard while holding Empty, so the analyzer is
invoked on an Empty point (the invocation itself returns nil). -/
theorem C9_counterexample :
    placeStone (NewBoard 2) { color := Color.Black, point := ⟨0, 0⟩ } =
      ({ board := [[Color.Black, Color.Empty], [Color.Empty, Color.Empty]], ko := none },
        PlaceResult.ok []) ∧
    (∃ n ∈ getNeighbors (⟨0, 0⟩ : Point),
      inBounds emptyNeighborBoard n = true ∧ colorAt emptyNeighborBoard n = Color.Empty) ∧
    capturedStones emptyNeighborBoard ⟨1, 0⟩ = none := by
  decide

/-- C9 (amended): the engine invokes the analyzer on every in-bounds
neighbor of the placed point regardless of color, so it is invoked on
Empty points; those invocations are benign: on an Empty in-bounds
start point the analyzer returns nil immediately, because the start
point itself is dequeued first and is a liberty (the suicide-check call
site is always on the just-placed, occupied point). -/
theorem C9_amended_empty_invocation_benign (b : Board) (p : Point)
    (hp : inBounds b p = true) (hemp : colorAt b p = Color.Empty) :
    capturedStones b p = none :=
  capturedStones_empty_none b p hp hemp

/-- Witness for the amended C9 at the Empty neighbor (1,0) of the
concrete placement. -/
theorem C9_amended_empty_invocation_benign_witness :
    inBounds emptyNeighborBoard (⟨1, 0⟩ : Point) = true ∧
    colorAt emptyNeighborBoard ⟨1, 0⟩ = Color.Empty ∧
    capturedStones emptyNeighborBoard ⟨1, 0⟩ = none :=
  ⟨by decide, by decide,
    C9_amended_empty_invocation_benign emptyNeighborBoard ⟨1, 0⟩ (by decide) (by decide)⟩

/-- C10: the defensive type assertion inside the traversal is
unreachable: with the worklist modelled at the dynamic type it has in
the source, every element ever dequeued is a Point, the traversal
agrees with the statically typed one on every invocation, and no call
ever reaches the panicking branch. -/
theorem C10_traversal_never_panics (b : Board) (p : Point) :
    capturedStonesDyn b p = DynRes.res (capturedStones b p) ∧
    capturedStonesDyn b p ≠ DynRes.panicked := by
  have h : capturedStonesDyn b p = DynRes.res (capturedStones b p) := by
    have hm := bfsDyn_map b (colorAt b p) (5 * (b.width * b.height) + 2) [] [p]
    simpa [capturedStonesDyn, capturedStones] using hm
  refine ⟨h, ?_⟩
  rw [h]
  simp

/-- C6 (amended, plus the concrete scenario): on every successful
PlaceStone call over a square grid, every computed captured point was
in bounds and holds Empty at return, the target cell holds the move's
color provided the target is not itself among the captured points (the
multi-stone suicide defect recorded at C4 can list the placed stone
itself as captured), no other cell changes, and the captured points are
returned with no error; in the concrete scenario, placing the last
surrounding black stone at (1,2) around the white stone at (1,1)
returns captured = [(1,1)] and leaves (1,1) Empty. -/
theorem C6_commit_effects (b : Board) (m : Move) (b' : Board) (l : List Point)
    (hsq : Square b.board) (h : placeStone b m = (b', PlaceResult.ok l)) :
    (∀ q ∈ l, inBounds b q = true ∧ colorAt b' q = Color.Empty) ∧
    (m.point ∉ l → colorAt b' m.point = m.color) ∧
    (∀ q, inBounds b q = true → q ≠ m.point → q ∉ l → colorAt b' q = colorAt b q) ∧
    placeStone capScenarioBoard { color := Color.Black, point := ⟨1, 2⟩ } =
      (capResultBoard, PlaceResult.ok [⟨1, 1⟩]) ∧
    colorAt capResultBoard ⟨1, 1⟩ = Color.Empty := by
  obtain ⟨h1, h2, hlcap, hb', hko⟩ := placeStone_ok_inv b m b' l h
  have hsq1 : Square (setColor { b with ko := none } m).board :=
    square_setColor { b with ko := none } m (by simpa using hsq)
  have hin_l : ∀ q ∈ l, inBounds b q = true := by
    intro q hq
    rw [hlcap] at hq
    have hcb := captured_points_inBounds _ m q hq
    simpa using hcb.1
  set bTent := setColor { b with ko := none } m with hbTent
  set B2 := (if l.length = 1 then { bTent with ko := some m.point } else bTent) with hB2
  have hB2board : B2.board = bTent.board := by
    rw [hB2]
    by_cases hone : l.length = 1
    · rw [if_pos hone]
    · rw [if_neg hone]
  have hB2sq : Square B2.board := by
    rw [hB2board]
    exact hsq1
  have hB2all : ∀ q ∈ l, inBounds B2 q = true := by
    intro q hq
    rw [inBounds_congr B2 bTent hB2board q, hbTent]
    simpa using hin_l q hq
  have hcolor : ∀ q, inBounds b q = true →
      colorAt b' q = if q ∈ l then Color.Empty else colorAt bTent q := by
    intro q hq
    rw [hb']
    have hq2 : inBounds B2 q = true := by
      rw [inBounds_congr B2 bTent hB2board q, hbTent]
      simpa using hq
    rw [colorAt_removeCapturedStones B2 l q hB2sq hB2all hq2]
    by_cases hql : q ∈ l
    · simp [hql]
    · rw [if_neg hql, if_neg hql]
      exact colorAt_congr B2 bTent hB2board q
  refine ⟨?_, ?_, ?_, by decide, by decide⟩
  · intro q hq
    refine ⟨hin_l q hq, ?_⟩
    rw [hcolor q (hin_l q hq)]
    simp [hq]
  · intro hmp
    rw [hcolor m.point h1, if_neg hmp, hbTent]
    have hself := colorAt_setColor_self { b with ko := none } m
      (by simpa using hsq) (by simpa using h1)
    simpa using hself
  · intro q hq hqm hql
    rw [hcolor q hq, if_neg hql, hbTent]
    have hother := colorAt_setColor_other { b with ko := none } m q hqm
      (by simpa using hq) (by simpa using h1)
    simpa using hother

/-- Witness for C6 at the concrete capture scenario. -/
theorem C6_commit_effects_witness :
    Square capScenarioBoard.board ∧
    placeStone capScenarioBoard { color := Color.Black, point := ⟨1, 2⟩ } =
      (capResultBoard, PlaceResult.ok [⟨1, 1⟩]) ∧
    ((∀ q ∈ ([⟨1, 1⟩] : List Point), inBounds capScenarioBoard q = true ∧
        colorAt capResultBoard q = Color.Empty) ∧
      ((⟨1, 2⟩ : Point) ∉ ([⟨1, 1⟩] : List Point) →
        colorAt capResultBoard ⟨1, 2⟩ = Color.Black) ∧
      (∀ q, inBounds capScenarioBoard q = true → q ≠ ⟨1, 2⟩ →
        q ∉ ([⟨1, 1⟩] : List Point) →
        colorAt capResultBoard q = colorAt capScenarioBoard q) ∧
      placeStone capScenarioBoard { color := Color.Black, point := ⟨1, 2⟩ } =
        (capResultBoard, PlaceResult.ok [⟨1, 1⟩]) ∧
      colorAt capResultBoard ⟨1, 1⟩ = Color.Empty) :=
  ⟨by decide, by decide,
    C6_commit_effects capScenarioBoard { color := Color.Black, point := ⟨1, 2⟩ }
      capResultBoard [⟨1, 1⟩] (by decide) (by decide)⟩

/-- C7: the ko restriction and its single-use lifecycle.  If a first
placement captures exactly one stone at p, then an immediate replay at
p that would recapture exactly the first move's stone fails with the ko
error and the grid remains exactly as after the first move; whereas if
a legal non-capturing move is played in between, the same recapture at
p then succeeds, because ko is read and cleared at the start of every
PlaceStone call and the intervening call left it unset. -/
theorem C7_ko_lifecycle
    (b0 b1 b2 : Board) (m1 m2 m3 m4 : Move) (p r : Point)
    (hfirst : placeStone b0 m1 = (b1, PlaceResult.ok [p]))
    (hm2 : m2.point = p)
    (h2in : inBounds b1 p = true)
    (h2emp : colorAt b1 p = Color.Empty)
    (h2cap : findCapturedGroups (setColor { b1 with ko := none } m2) m2 = [m1.point])
    (hmid : placeStone b1 m3 = (b2, PlaceResult.ok []))
    (hm4 : m4.point = p)
    (h4in : inBounds b2 p = true)
    (h4emp : colorAt b2 p = Color.Empty)
    (h4cap : findCapturedGroups (setColor { b2 with ko := none } m4) m4 = [r]) :
    placeStone b1 m2 =
      ({ board := b1.board, ko := some p }, PlaceResult.err PlaceErr.illegalKo) ∧
    (placeStone b2 m4).2 = PlaceResult.ok [r] := by
  constructor
  · obtain ⟨_, _, _, _, hko1⟩ := placeStone_ok_inv b0 m1 b1 [p] hfirst
    have hko1' : b1.ko = some m1.point := by simpa using hko1
    have hres := placeStone_ko_reject b1 m2 m1.point
      (by rw [hm2]; exact h2in) (by rw [hm2]; exact h2emp) h2cap hko1'
    rw [hres, hm2]
  · obtain ⟨_, _, _, _, hko2⟩ := placeStone_ok_inv b1 m3 b2 [] hmid
    have hko2' : b2.ko = none := by simpa using hko2
    have hres := placeStone_commit b2 m4 [r]
      (by rw [hm4]; exact h4in) (by rw [hm4]; exact h4emp) h4cap
      (by simp)
      (by simp [hko2'])
    rw [hres]

/-- Witness for C7 on the concrete 4x3 ko position: White captures at
(2,1), Black's immediate recapture at (1,1) fails with the ko error and
leaves the grid intact, while playing (3,0) first and then recapturing
at (1,1) succeeds. -/
theorem C7_ko_lifecycle_witness :
    placeStone koStartBoard { color := Color.White, point := ⟨2, 1⟩ } =
      (koCapturedBoard, PlaceResult.ok [⟨1, 1⟩]) ∧
    inBounds koCapturedBoard (⟨1, 1⟩ : Point) = true ∧
    colorAt koCapturedBoard ⟨1, 1⟩ = Color.Empty ∧
    findCapturedGroups (setColor { koCapturedBoard with ko := none }
        { color := Color.Black, point := ⟨1, 1⟩ })
      { color := Color.Black, point := ⟨1, 1⟩ } = [⟨2, 1⟩] ∧
    placeStone koCapturedBoard { color := Color.Black, point := ⟨3, 0⟩ } =
      (koElsewhereBoard, PlaceResult.ok []) ∧
    inBounds koElsewhereBoard (⟨1, 1⟩ : Point) = true ∧
    colorAt koElsewhereBoard ⟨1, 1⟩ = Color.Empty ∧
    findCapturedGroups (setColor { koElsewhereBoard with ko := none }
        { color := Color.Black, point := ⟨1, 1⟩ })
      { color := Color.Black, point := ⟨1, 1⟩ } = [⟨2, 1⟩] ∧
    (placeStone koCapturedBoard { color := Color.Black, point := ⟨1, 1⟩ } =
        ({ board := koCapturedBoard.board, ko := some ⟨1, 1⟩ },
          PlaceResult.err PlaceErr.illegalKo) ∧
      (placeStone koElsewhereBoard { color := Color.Black, point := ⟨1, 1⟩ }).2 =
        PlaceResult.ok [⟨2, 1⟩]) :=
  ⟨by decide, by decide, by decide, by decide, by decide, by decide, by decide, by decide,
    C7_ko_lifecycle koStartBoard koCapturedBoard koElsewhereBoard
      { color := Color.White, point := ⟨2, 1⟩ } { color := Color.Black, point := ⟨1, 1⟩ }
      { color := Color.Black, point := ⟨3, 0⟩ } { color := Color.Black, point := ⟨1, 1⟩ }
      ⟨1, 1⟩ ⟨2, 1⟩ (by decide) rfl (by decide) (by decide) (by decide) (by decide) rfl
      (by decide) (by decide) (by decide)⟩

/-- C8: for boards built by NewBoard with size at least 1 and mutated
by any sequence of PlaceStone calls, accepted or rejected, the grid
stays square of dimensions size x size, every cell always holds exactly
one of the three colors with Empty the initial state of every cell, and
ko starts unset and is always either unset or an in-bounds point. -/
theorem C8_board_invariants (size : Nat) (hsz : 1 ≤ size) (b : Board)
    (hr : Reachable size b) :
    b.board.length = size ∧
    (∀ row ∈ b.board, row.length = size) ∧
    (∀ row ∈ b.board, ∀ cell ∈ row,
      cell = Color.Empty ∨ cell = Color.Black ∨ cell = Color.White) ∧
    (∀ k, b.ko = some k → inBounds b k = true) ∧
    (NewBoard size).ko = none ∧
    (∀ row ∈ (NewBoard size).board, ∀ cell ∈ row, cell = Color.Empty) := by
  have hcells : ∀ (row : List Color), ∀ cell ∈ row,
      cell = Color.Empty ∨ cell = Color.Black ∨ cell = Color.White := by
    intro row cell _
    cases cell
    · exact Or.inl rfl
    · exact Or.inr (Or.inl rfl)
    · exact Or.inr (Or.inr rfl)
  have hinit : ∀ row ∈ (NewBoard size).board, ∀ cell ∈ row, cell = Color.Empty := by
    intro row hrow cell hcell
    rw [NewBoard_rows size row hrow] at hcell
    exact List.eq_of_mem_replicate hcell
  induction hr with
  | base =>
      refine ⟨NewBoard_length size, ?_, fun row _ => hcells row, ?_, NewBoard_ko size, hinit⟩
      · intro row hrow
        rw [NewBoard_rows size row hrow]
        simp
      · intro k hk
        rw [NewBoard_ko] at hk
        cases hk
  | step bb m hbb ih =>
      obtain ⟨ihlen, ihrow, _, ihko, _, _⟩ := ih
      obtain ⟨hh, hw, hrows, hkoc⟩ := placeStone_preserves bb m
      refine ⟨?_, hrows size ihrow, fun row _ => hcells row, ?_, NewBoard_ko size, hinit⟩
      · have hlen : (placeStone bb m).1.board.length = bb.board.length := hh
        rw [hlen, ihlen]
      · intro k hk
        rcases hkoc with hnone | ⟨hsome, hin⟩
        · rw [hnone] at hk
          cases hk
        · rw [hsome] at hk
          have hkp : m.point = k := Option.some.inj hk
          rw [← hkp]
          rw [inBounds_dims (placeStone bb m).1 bb hw hh]
          exact hin

/-- Witness for C8 on the 2x2 board after one placement. -/
theorem C8_board_invariants_witness :
    1 ≤ 2 ∧
    ((placeStone (NewBoard 2) { color := Color.Black, point := ⟨0, 0⟩ }).1.board.length = 2 ∧
      (∀ row ∈ (placeStone (NewBoard 2)
          { color := Color.Black, point := ⟨0, 0⟩ }).1.board, row.length = 2) ∧
      (∀ row ∈ (placeStone (NewBoard 2)
          { color := Color.Black, point := ⟨0, 0⟩ }).1.board, ∀ cell ∈ row,
        cell = Color.Empty ∨ cell = Color.Black ∨ cell = Color.White) ∧
      (∀ k, (placeStone (NewBoard 2)
          { color := Color.Black, point := ⟨0, 0⟩ }).1.ko = some k →
        inBounds (placeStone (NewBoard 2)
          { color := Color.Black, point := ⟨0, 0⟩ }).1 k = true) ∧
      (NewBoard 2).ko = none ∧
      (∀ row ∈ (NewBoard 2).board, ∀ cell ∈ row, cell = Color.Empty)) :=
  ⟨by decide,
    C8_board_invariants 2 (by decide) _
      (Reachable.step (NewBoard 2) { color := Color.Black, point := ⟨0, 0⟩ } Reachable.base)⟩
